import Mathlib

/-!
Shallow embedding of the signal-driven backtest engine of `src/duckweb/main.py`
(function `spot_analysis`, backtest loop at lines 1178-1360).

Prices, indicator levels and times are modelled as rationals (the Python code
uses floats, treated here as exact numbers).  A pandas `NaN` indicator value is
modelled as `Option.none`; every numeric comparison against `NaN` is false in
numpy, which the `Option`-matching definitions below reproduce.  The
risk-reward configuration is `Option ℚ`: `some r` is a numeric multiplier,
`none` is the string sentinel `'Until Opposite Signal'`.
-/

namespace Duckweb

/-- Trade / position direction, the strings `'long'` / `'short'` of the source. -/
inductive Dir where
  | long
  | short
deriving DecidableEq, BEq, Repr, Inhabited

/-- Signal classification, the strings `'Bullish'` / `'Bearish'` of the source.
The dataframe cross columns additionally carry `None`, modelled as `Option Sig`. -/
inductive Sig where
  | Bullish
  | Bearish
deriving DecidableEq, BEq, Repr, Inhabited

/-- One OHLC bar row of the backtest dataframe `df_bt`.  `time` is the
`datetime` column, `op` the `open` column. -/
structure Bar where
  time : ℚ
  op : ℚ
  high : ℚ
  low : ℚ
  close : ℚ
deriving DecidableEq, Repr, Inhabited

/-- One row of the `trades` list built by the loop (lines 1248-1255 etc.). -/
structure Trade where
  entry_time : ℚ
  exit_time : ℚ
  dir : Dir
  entry_price : ℚ
  exit_price : ℚ
  points : ℚ
deriving DecidableEq, Repr, Inhabited

/-- Row lookup `df_bt.iloc[i]` on the bar series (out-of-range reads never
occur in a run; the default is inert). -/
def barAt (bars : List Bar) (i : ℕ) : Bar :=
  bars[i]?.getD default

/-- Row lookup `indicator.iloc[i]` on the indicator series. -/
def indAt (ind : List (Option ℚ)) (i : ℕ) : Option ℚ :=
  ind[i]?.getD none

/-- Per-bar classification, lines 1193 and 1204:
`np.where(df['close'] > indicator, 'Bullish', 'Bearish')`.
Equality of close and indicator makes the condition false, hence `Bearish`;
a `NaN` indicator (modelled `none`) also compares false, hence `Bearish`. -/
def classify (c : ℚ) (ind : Option ℚ) : Sig :=
  match ind with
  | some v => if v < c then Sig.Bullish else Sig.Bearish
  | none => Sig.Bearish

/-- The whole `signal` column over aligned bar and indicator series. -/
def signalList (bars : List Bar) (ind : List (Option ℚ)) : List Sig :=
  List.zipWith (fun b v => classify b.close v) bars ind

/-- The cross column (lines 1195-1199 / 1206-1210):
`np.where((signal != signal.shift(1)) & signal.notna(), signal, None)`.
The classification column never holds `NaN` (it is a string either way), so
`notna` is always true; at row 0 the shifted value is `NaN` and the string
comparison `!=` against `NaN` is true, so row 0 always carries its signal. -/
def crossAt (sigs : List Sig) (i : ℕ) : Option Sig :=
  match sigs[i]? with
  | none => none
  | some s =>
      if i = 0 then some s
      else
        match sigs[i-1]? with
        | none => some s
        | some p => if s = p then none else some s

/-- `'long' if signal == 'Bullish' else 'short'` applied to a bare signal. -/
def dirOf (s : Sig) : Dir :=
  if s == Sig.Bullish then Dir.long else Dir.short

/-- `'long' if signal == 'Bullish' else 'short'` applied to a cross-column
value (line 1260; `None` compares unequal to `'Bullish'`, giving `'short'`,
though that case is unreachable under a flip). -/
def dirOfCross (s : Option Sig) : Dir :=
  if s == some Sig.Bullish then Dir.long else Dir.short

/-- Flip test, line 1229:
`(direction == 'long' and signal == 'Bearish') or (direction == 'short' and signal == 'Bullish')`. -/
def flipB (d : Dir) (s : Option Sig) : Bool :=
  (d == Dir.long && s == some Sig.Bearish) || (d == Dir.short && s == some Sig.Bullish)

/-- Stop-loss test, lines 1263 / 1277: long `bar.low <= sl`, short
`bar.high >= sl`.  A `NaN` stop level (`none`) compares false. -/
def stopHit (d : Dir) (bar : Bar) (sl : Option ℚ) : Bool :=
  match sl with
  | some v =>
      match d with
      | Dir.long => decide (bar.low ≤ v)
      | Dir.short => decide (v ≤ bar.high)
  | none => false

/-- Target level, lines 1237-1240:
`tgt = entry + (rr if rr != sentinel else 0) * (entry - sl)` for long and
`tgt = entry - (rr if rr != sentinel else 0) * (sl - entry)` for short.
`NaN` stop level propagates to a `NaN` target (`none`). -/
def targetOf (rr : Option ℚ) (d : Dir) (entry_price : ℚ) (sl : Option ℚ) : Option ℚ :=
  sl.map fun v =>
    match d with
    | Dir.long => entry_price + rr.getD 0 * (entry_price - v)
    | Dir.short => entry_price - rr.getD 0 * (v - entry_price)

/-- Target test, lines 1292 / 1306: requires `rr_ratio != 'Until Opposite Signal'`
and long `bar.high >= tgt` / short `bar.low <= tgt` (`NaN` target compares false). -/
def targetHit (rr : Option ℚ) (d : Dir) (bar : Bar) (tgt : Option ℚ) : Bool :=
  rr.isSome &&
    match tgt with
    | some v =>
        match d with
        | Dir.long => decide (v ≤ bar.high)
        | Dir.short => decide (bar.low ≤ v)
    | none => false

/-- `points` of a closed trade: `exit - entry` for long, `entry - exit` for short. -/
def pointsOf (d : Dir) (entry_price exit_price : ℚ) : ℚ :=
  match d with
  | Dir.long => exit_price - entry_price
  | Dir.short => entry_price - exit_price

/-- The loop state: `trades`, `in_trade`, `entry_idx`, `entry_price`,
`direction`, `equity` of lines 1213-1218.  The Python initial values `None`
for index/price/direction are modelled by inert defaults; they are only read
after being overwritten at an entry. -/
structure SimState where
  trades : List Trade
  in_trade : Bool
  entry_idx : ℕ
  entry_price : ℚ
  dir : Dir
  equity : List ℚ
deriving DecidableEq, Repr, Inhabited

/-- Initial loop state (lines 1213-1218): no trades, flat, `equity = [0]`. -/
def initState : SimState :=
  { trades := [], in_trade := false, entry_idx := 0, entry_price := 0,
    dir := Dir.long, equity := [0] }

/-- Build the trade record appended on a close (shared shape of lines
1248-1255, 1267-1274, 1281-1288, 1296-1303, 1310-1317, 1325-1332). -/
def mkTrade (bars : List Bar) (entry_idx exit_idx : ℕ) (d : Dir)
    (entry_price exit_price : ℚ) : Trade :=
  { entry_time := (barAt bars entry_idx).time
    exit_time := (barAt bars exit_idx).time
    dir := d
    entry_price := entry_price
    exit_price := exit_price
    points := pointsOf d entry_price exit_price }

/-- One iteration of `for i in range(1, len(df_bt))` (lines 1220-1319).
Stop level `sl` is re-read each bar from the indicator column at `entry_idx`
(lines 1231-1236); the exit rules are an `if`/`elif` chain: flip, then stop,
then target; omitted `else`: the position stays open unchanged. -/
def step (bars : List Bar) (ind : List (Option ℚ)) (rr : Option ℚ)
    (st : SimState) (i : ℕ) : SimState :=
  let bar := barAt bars i
  let signal := crossAt (signalList bars ind) i
  if st.in_trade = false then
    match signal with
    | some s =>
        { st with in_trade := true, entry_idx := i, entry_price := bar.op, dir := dirOf s }
    | none => st
  else if st.in_trade then
    let sl := indAt ind st.entry_idx
    let tgt := targetOf rr st.dir st.entry_price sl
    if flipB st.dir signal then
      let exit_price := bar.op
      let points := pointsOf st.dir st.entry_price exit_price
      { trades := st.trades ++ [mkTrade bars st.entry_idx i st.dir st.entry_price exit_price]
        in_trade := true
        entry_idx := i
        entry_price := bar.op
        dir := dirOfCross signal
        equity := st.equity ++ [st.equity.getLastD 0 + points] }
    else if stopHit st.dir bar sl then
      let exit_price := sl.getD 0
      let points := pointsOf st.dir st.entry_price exit_price
      { st with
        trades := st.trades ++ [mkTrade bars st.entry_idx i st.dir st.entry_price exit_price]
        in_trade := false
        equity := st.equity ++ [st.equity.getLastD 0 + points] }
    else if targetHit rr st.dir bar tgt then
      let exit_price := tgt.getD 0
      let points := pointsOf st.dir st.entry_price exit_price
      { st with
        trades := st.trades ++ [mkTrade bars st.entry_idx i st.dir st.entry_price exit_price]
        in_trade := false
        equity := st.equity ++ [st.equity.getLastD 0 + points] }
    else st
  else st

/-- The bar loop `for i in range(1, len(df_bt))`. -/
def simLoop (bars : List Bar) (ind : List (Option ℚ)) (rr : Option ℚ) : SimState :=
  (List.range' 1 (bars.length - 1)).foldl (step bars ind rr) initState

/-- The loop followed by the forced close of lines 1320-1333: if still in a
trade, close at the last bar's close price and append the equity point.
(The source leaves `in_trade` as it was; so does this definition.) -/
def runSim (bars : List Bar) (ind : List (Option ℚ)) (rr : Option ℚ) : SimState :=
  let s := simLoop bars ind rr
  if s.in_trade then
    let j := bars.length - 1
    let exit_price := (barAt bars j).close
    let points := pointsOf s.dir s.entry_price exit_price
    { s with
      trades := s.trades ++ [mkTrade bars s.entry_idx j s.dir s.entry_price exit_price]
      equity := s.equity ++ [s.equity.getLastD 0 + points] }
  else s

/-- `total_points = sum(t['points'] for t in trades)` (line 1334), reported
as `Cumulative PnL (pts)` (line 1354). -/
def total_points (trades : List Trade) : ℚ :=
  (trades.map Trade.points).sum

/-- `win_trades = [t for t in trades if t['points'] > 0]` (line 1335). -/
def win_trades (trades : List Trade) : List Trade :=
  trades.filter fun t => decide (0 < t.points)

/-- `loss_trades = [t for t in trades if t['points'] <= 0]` (line 1336). -/
def loss_trades (trades : List Trade) : List Trade :=
  trades.filter fun t => decide (t.points ≤ 0)

/-- `win_rate` (line 1337) as a number: `len(win)/len(trades)*100`, `0` when
there are no trades. -/
def win_rate (trades : List Trade) : ℚ :=
  if trades.length = 0 then 0
  else ((win_trades trades).length : ℚ) / (trades.length : ℚ) * 100

/-- `expectancy` (line 1338) as a number: `np.mean(points)`, i.e. the sum of
points divided by the number of trades, `0` when there are no trades. -/
def expectancy (trades : List Trade) : ℚ :=
  if trades.length = 0 then 0
  else total_points trades / (trades.length : ℚ)

/-- One iteration of the drawdown scan (lines 1343-1348), on the pair
`(max_dd, peak)`. -/
def ddStep (p : ℚ × ℚ) (x : ℚ) : ℚ × ℚ :=
  let peak := if p.2 < x then x else p.2
  let dd := peak - x
  (if p.1 < dd then dd else p.1, peak)

/-- `max_dd` of lines 1341-1348: `max_dd = 0; peak = curve[0]`, then scan. -/
def maxDrawdown (curve : List ℚ) : ℚ :=
  (curve.foldl ddStep (0, curve.getD 0 0)).1

/-- The sequence of running peaks along a curve, starting from seed `p`. -/
def peaks (p : ℚ) : List ℚ → List ℚ
  | [] => []
  | x :: xs => max p x :: peaks (max p x) xs

/-- Drawdown at every point of the curve: running peak minus current value,
with the running peak seeded at the curve's first element. -/
def ddList (curve : List ℚ) : List ℚ :=
  List.zipWith (fun p x => p - x) (peaks (curve.getD 0 0) curve) curve

/-- Invariant used for time ordering: every recorded trade exits no earlier
than it entered, and an open position was entered at an index at most `b`. -/
def TimedOK (bars : List Bar) (st : SimState) (b : ℕ) : Prop :=
  (∀ t ∈ st.trades, t.entry_time ≤ t.exit_time) ∧
    (st.in_trade = true → st.entry_idx ≤ b)

/-- Invariant: the equity list is exactly the running cumulative sum (from 0)
of the points of the recorded trades. -/
def EquityOK (st : SimState) : Prop :=
  st.equity = List.scanl (· + ·) 0 (st.trades.map Trade.points)

/-- A state holding an open long position entered at bar 0 at price 104. -/
def stOpen : SimState :=
  { trades := [], in_trade := true, entry_idx := 0, entry_price := 104,
    dir := Dir.long, equity := [0] }

/-- Bars whose second bar breaches both the stop (low 99 ≤ 100) and, for
small multipliers, the target (high 113). -/
def bars1 : List Bar := [⟨0, 100, 101, 99, 105⟩, ⟨1, 104, 113, 99, 110⟩]

/-- Indicator level 100 at both bars. -/
def ind1 : List (Option ℚ) := [some 100, some 100]

/-- Bars whose second bar clears the target (high 113 ≥ 112) without
touching the stop (low 104 > 100). -/
def bars3 : List Bar := [⟨0, 100, 101, 99, 105⟩, ⟨1, 104, 113, 104, 110⟩]

/-- A bullish cross at bar 1 with no exit opportunity afterwards: the
position is still open when the series ends. -/
def bars2 : List Bar := [⟨0, 100, 101, 99, 89⟩, ⟨1, 104, 106, 102, 105⟩]

/-- Indicator level 90 at both bars. -/
def ind2 : List (Option ℚ) := [some 90, some 90]

/-- Bearish bar 0, bullish cross at bar 1 (entry), bearish cross at bar 2
(flip into a short that the end of the series force-closes). -/
def barsF : List Bar :=
  [⟨0, 100, 101, 94, 95⟩, ⟨1, 104, 106, 102, 105⟩, ⟨2, 103, 104, 89, 90⟩]

/-- Indicator level 100 at all three bars. -/
def indF : List (Option ℚ) := [some 100, some 100, some 100]

/-- Bars for the signal-classification counterexample: bar 1 closes exactly on
the indicator, bar 3 has an undefined indicator value. -/
def bars6 : List Bar :=
  [⟨0, 100, 102, 99, 101⟩, ⟨1, 100, 102, 99, 100⟩,
   ⟨2, 100, 104, 99, 103⟩, ⟨3, 100, 104, 99, 102⟩]

/-- Indicator 100 on the first three bars, undefined (`NaN`) on the last. -/
def ind6 : List (Option ℚ) := [some 100, some 100, some 100, none]

/-- A winning trade followed by a zero-point trade. -/
def trades10 : List Trade :=
  [⟨0, 1, Dir.long, 100, 103, 3⟩, ⟨1, 2, Dir.short, 100, 100, 0⟩]

/-- The zero-point trade of `trades10`. -/
def tZero : Trade := ⟨1, 2, Dir.short, 100, 100, 0⟩

end Duckweb

namespace Duckweb

/-- Folding a step function preserves any per-step invariant. -/
theorem foldl_pres {β α : Type} (f : β → α → β) (P : β → Prop)
    (hf : ∀ s a, P s → P (f s a)) : ∀ (l : List α) (s : β), P s → P (l.foldl f s)
  | [], _, h => h
  | a :: l, s, h => foldl_pres f P hf l (f s a) (hf s a h)

/-- Claim C1: while a position is open the exit rules are checked flip, then
stop, then target, first match only; in particular on a bar where no flip
fired and both the stop condition and the target condition hold numerically,
the position exits at the stop with exit price exactly the stop level. -/
theorem claim_C1 (bars : List Bar) (ind : List (Option ℚ)) (rr : Option ℚ)
    (st : SimState) (i : ℕ) (hin : st.in_trade = true)
    (hflip : flipB st.dir (crossAt (signalList bars ind) i) = false)
    (hstop : stopHit st.dir (barAt bars i) (indAt ind st.entry_idx) = true)
    (htgt : targetHit rr st.dir (barAt bars i)
      (targetOf rr st.dir st.entry_price (indAt ind st.entry_idx)) = true) :
    step bars ind rr st i =
      { st with
        trades := st.trades ++ [mkTrade bars st.entry_idx i st.dir st.entry_price
          ((indAt ind st.entry_idx).getD 0)]
        in_trade := false
        equity := st.equity ++ [st.equity.getLastD 0 +
          pointsOf st.dir st.entry_price ((indAt ind st.entry_idx).getD 0)] } := by
  simp [step, hin, hflip, hstop]

/-- Witness for C1: long from 104 with stop 100 and target 108; bar 1 has
low 99 and high 113, so both conditions hold and no flip fires; the exit is
the stop at exactly 100, points −4. -/
theorem claim_C1_check :
    step bars1 ind1 (some 1) stOpen 1 =
      { trades := [⟨0, 1, Dir.long, 104, 100, -4⟩], in_trade := false,
        entry_idx := 0, entry_price := 104, dir := Dir.long, equity := [0, -4] } := by
  have h := claim_C1 bars1 ind1 (some 1) stOpen 1 rfl
    (by norm_num +decide [flipB, crossAt, signalList, classify, bars1, ind1, stOpen])
    (by norm_num [stopHit, barAt, indAt, bars1, ind1, stOpen])
    (by norm_num [targetHit, targetOf, barAt, indAt, bars1, ind1, stOpen])
  rw [h]
  norm_num [stOpen, mkTrade, pointsOf, barAt, indAt, bars1, ind1]

/-- Claim C2: on a stop exit the recorded exit price is exactly the stop
level, and on a target exit it is exactly the computed target, for every bar,
however far the bar's low or high moved beyond those levels. -/
theorem claim_C2 (bars : List Bar) (ind : List (Option ℚ)) (rr : Option ℚ)
    (st : SimState) (i : ℕ) (hin : st.in_trade = true)
    (hflip : flipB st.dir (crossAt (signalList bars ind) i) = false) :
    (stopHit st.dir (barAt bars i) (indAt ind st.entry_idx) = true →
      (step bars ind rr st i).trades = st.trades ++
        [mkTrade bars st.entry_idx i st.dir st.entry_price
          ((indAt ind st.entry_idx).getD 0)]) ∧
    (stopHit st.dir (barAt bars i) (indAt ind st.entry_idx) = false →
      targetHit rr st.dir (barAt bars i)
        (targetOf rr st.dir st.entry_price (indAt ind st.entry_idx)) = true →
      (step bars ind rr st i).trades = st.trades ++
        [mkTrade bars st.entry_idx i st.dir st.entry_price
          ((targetOf rr st.dir st.entry_price (indAt ind st.entry_idx)).getD 0)]) := by
  constructor
  · intro hstop
    simp [step, hin, hflip, hstop]
  · intro hstop htgt
    simp [step, hin, hflip, hstop, htgt]

/-- Witness for C2: a stop exit records exit price 100 (the stop level, not
the bar low 99), and a target exit records exit price 112 (the computed
target, not the bar high 113). -/
theorem claim_C2_check :
    (step bars1 ind1 (some 1) stOpen 1).trades = [⟨0, 1, Dir.long, 104, 100, -4⟩] ∧
    (step bars3 ind1 (some 2) stOpen 1).trades = [⟨0, 1, Dir.long, 104, 112, 8⟩] := by
  constructor
  · have h := (claim_C2 bars1 ind1 (some 1) stOpen 1 rfl
      (by norm_num +decide [flipB, crossAt, signalList, classify, bars1, ind1, stOpen])).1
      (by norm_num [stopHit, barAt, indAt, bars1, ind1, stOpen])
    rw [h]
    norm_num [stOpen, mkTrade, pointsOf, barAt, indAt, bars1, ind1]
  · have h := (claim_C2 bars3 ind1 (some 2) stOpen 1 rfl
      (by norm_num +decide [flipB, crossAt, signalList, classify, bars3, ind1, stOpen])).2
      (by norm_num [stopHit, barAt, indAt, bars3, ind1, stOpen])
      (by norm_num [targetHit, targetOf, barAt, indAt, bars3, ind1, stOpen])
    rw [h]
    norm_num [stOpen, mkTrade, pointsOf, targetOf, barAt, indAt, bars3, ind1]

/-- Claim C4: with a numeric multiplier the target is
`entry + rr*(entry − stop)` for a long and `entry − rr*(stop − entry)` for a
short; with the hold-until-flip sentinel the target rule is skipped entirely,
so a bar with no flip and no stop leaves the position open unchanged. -/
theorem claim_C4 (bars : List Bar) (ind : List (Option ℚ)) (st : SimState)
    (i : ℕ) (e s r : ℚ) :
    targetOf (some r) Dir.long e (some s) = some (e + r * (e - s)) ∧
    targetOf (some r) Dir.short e (some s) = some (e - r * (s - e)) ∧
    (st.in_trade = true →
      flipB st.dir (crossAt (signalList bars ind) i) = false →
      stopHit st.dir (barAt bars i) (indAt ind st.entry_idx) = false →
      step bars ind none st i = st) := by
  refine ⟨rfl, rfl, ?_⟩
  intro hin hflip hstop
  simp [step, hin, hflip, hstop, targetHit]

/-- Witness for C4: the long target from 104 with stop 100 and multiplier 2
is 112, the short counterpart is 96; under the sentinel the same bar that
would hit the 112 target leaves the state unchanged. -/
theorem claim_C4_check :
    targetOf (some 2) Dir.long 104 (some 100) = some 112 ∧
    targetOf (some 2) Dir.short 104 (some 108) = some 96 ∧
    step bars3 ind1 none stOpen 1 = stOpen := by
  have h := claim_C4 bars3 ind1 stOpen 1 104 100 2
  refine ⟨h.1.trans (by norm_num), ?_, ?_⟩
  · exact (claim_C4 bars3 ind1 stOpen 1 104 108 2).2.1.trans (by norm_num)
  · exact h.2.2 rfl
      (by norm_num +decide [flipB, crossAt, signalList, classify, bars3, ind1, stOpen])
      (by norm_num [stopHit, barAt, indAt, bars3, ind1, stOpen])

/-- Claim C5: when the loop ends with a position still open, the run
force-closes it at the last bar's close price, appending exactly one final
trade with that exit price and exactly one final equity point. -/
theorem claim_C5 (bars : List Bar) (ind : List (Option ℚ)) (rr : Option ℚ)
    (h : (simLoop bars ind rr).in_trade = true) :
    (runSim bars ind rr).trades = (simLoop bars ind rr).trades ++
      [mkTrade bars (simLoop bars ind rr).entry_idx (bars.length - 1)
        (simLoop bars ind rr).dir (simLoop bars ind rr).entry_price
        ((barAt bars (bars.length - 1)).close)] ∧
    (runSim bars ind rr).equity = (simLoop bars ind rr).equity ++
      [(simLoop bars ind rr).equity.getLastD 0 +
        pointsOf (simLoop bars ind rr).dir (simLoop bars ind rr).entry_price
          ((barAt bars (bars.length - 1)).close)] := by
  constructor <;> simp [runSim, h]

/-- Witness for C5: entry long at 104 on the last bar of a two-bar series;
the run ends with the position open and force-closes at the final close 105,
recording one trade with exit price 105 and appending equity point 1. -/
theorem claim_C5_check :
    (runSim bars2 ind2 (some 2)).trades = [⟨1, 1, Dir.long, 104, 105, 1⟩] ∧
    (runSim bars2 ind2 (some 2)).equity = [0, 1] := by
  obtain ⟨h1, h2⟩ := claim_C5 bars2 ind2 (some 2)
    (by norm_num +decide [simLoop, bars2, ind2, step, initState, signalList,
      classify, crossAt, List.range', dirOf, barAt, indAt])
  rw [h1, h2]
  norm_num +decide [simLoop, bars2, ind2, step, initState, signalList,
    classify, crossAt, List.range', dirOf, mkTrade, pointsOf, barAt, indAt]

/-- Claim C7: a series of fewer than two bars yields zero trades and the
equity curve `[0]`, as a normal empty result. -/
theorem claim_C7 (bars : List Bar) (ind : List (Option ℚ)) (rr : Option ℚ)
    (h : bars.length < 2) :
    (runSim bars ind rr).trades = [] ∧ (runSim bars ind rr).equity = [0] := by
  rcases bars with _ | ⟨a, _ | ⟨b, l⟩⟩
  · exact ⟨rfl, rfl⟩
  · exact ⟨rfl, rfl⟩
  · simp only [List.length_cons] at h
    omega

/-- Witness for C7: a one-bar series produces no trades and equity `[0]`. -/
theorem claim_C7_check :
    (runSim [⟨0, 1, 1, 1, 1⟩] [some 1] (some 2)).trades = [] ∧
    (runSim [⟨0, 1, 1, 1, 1⟩] [some 1] (some 2)).equity = [0] :=
  claim_C7 [⟨0, 1, 1, 1, 1⟩] [some 1] (some 2) (by norm_num)

/-- Appending one summand extends the running-sum scan by one value. -/
theorem scanl_add_append (l : List ℚ) : ∀ (a x : ℚ),
    List.scanl (· + ·) a (l ++ [x]) = List.scanl (· + ·) a l ++ [a + l.sum + x] := by
  induction l with
  | nil => intro a x; simp
  | cons h t ih =>
      intro a x
      simp only [List.cons_append, List.scanl_cons, ih (a + h) x, List.sum_cons]
      simp [add_assoc]

/-- The last element of a running-sum scan is the seed plus the total sum. -/
theorem scanl_add_getLastD (l : List ℚ) : ∀ (a d : ℚ),
    (List.scanl (· + ·) a l).getLastD d = a + l.sum := by
  induction l with
  | nil => intro a d; simp
  | cons h t ih =>
      intro a d
      simp only [List.scanl_cons, List.singleton_append, List.getLastD_cons, ih (a + h) a,
        List.sum_cons]
      ring

/-- The first element of a running-sum scan is the seed. -/
theorem scanl_add_head (a : ℚ) (l : List ℚ) :
    (List.scanl (· + ·) a l).getD 0 0 = a := by
  cases l <;> simp

/-- Each element of a running-sum scan is the previous element plus the
corresponding summand. -/
theorem scanl_add_getD (l : List ℚ) : ∀ (a : ℚ) (k : ℕ), k < l.length →
    (List.scanl (· + ·) a l).getD (k + 1) 0 =
      (List.scanl (· + ·) a l).getD k 0 + l.getD k 0 := by
  induction l with
  | nil => intro a k hk; simp at hk
  | cons h t ih =>
      intro a k hk
      cases k with
      | zero =>
          simp only [List.scanl_cons, List.singleton_append, List.getD_cons_succ,
            List.getD_cons_zero, scanl_add_head]
      | succ k =>
          simp only [List.scanl_cons, List.singleton_append, List.getD_cons_succ]
          exact ih (a + h) k (by simpa using hk)

/-- Reading a projected list at an in-range index agrees with projecting the
element read there. -/
theorem getD_points_map (tr : List Trade) (k : ℕ) (hk : k < tr.length) :
    (tr.map Trade.points).getD k 0 = (tr.getD k default).points := by
  rw [List.getD_eq_getElem?_getD, List.getD_eq_getElem?_getD, List.getElem?_map,
    List.getElem?_eq_getElem hk]
  rfl

/-- Every branch of `step` preserves the equity-curve invariant. -/
theorem step_equityOK (bars : List Bar) (ind : List (Option ℚ)) (rr : Option ℚ)
    (st : SimState) (i : ℕ) (h : EquityOK st) : EquityOK (step bars ind rr st i) := by
  unfold EquityOK at h ⊢
  by_cases hin : st.in_trade = true
  · simp only [step, hin]
    simp only [Bool.true_eq_false, if_false, if_true]
    split
    · simp only [List.map_append, List.map_cons, List.map_nil, mkTrade]
      rw [h, scanl_add_append, scanl_add_getLastD]
    · split
      · simp only [List.map_append, List.map_cons, List.map_nil, mkTrade]
        rw [h, scanl_add_append, scanl_add_getLastD]
      · split
        · simp only [List.map_append, List.map_cons, List.map_nil, mkTrade]
          rw [h, scanl_add_append, scanl_add_getLastD]
        · exact h
  · have hin' : st.in_trade = false := by revert hin; cases st.in_trade <;> simp
    simp only [step, hin', if_true]
    cases crossAt (signalList bars ind) i <;> simpa using h

/-- The whole run satisfies the equity-curve invariant. -/
theorem runSim_equityOK (bars : List Bar) (ind : List (Option ℚ)) (rr : Option ℚ) :
    EquityOK (runSim bars ind rr) := by
  have h0 : EquityOK initState := by simp [EquityOK, initState]
  have hs : EquityOK (simLoop bars ind rr) :=
    foldl_pres _ EquityOK (fun s a hp => step_equityOK bars ind rr s a hp) _ initState h0
  unfold EquityOK at hs ⊢
  unfold runSim
  by_cases h : (simLoop bars ind rr).in_trade = true
  · simp only [h, if_true]
    simp only [List.map_append, List.map_cons, List.map_nil, mkTrade]
    rw [hs, scanl_add_append, scanl_add_getLastD]
  · have h' : (simLoop bars ind rr).in_trade = false := by
      revert h; cases (simLoop bars ind rr).in_trade <;> simp
    simpa [h'] using hs

/-- Claim C9: the equity curve is the running cumulative sum, from 0, of the
points of the closed trades — it starts at 0, gains exactly one value per
trade, each previous value plus that trade's points — and hence its last
value equals the sum of all points, which is the reported cumulative PnL. -/
theorem claim_C9 (bars : List Bar) (ind : List (Option ℚ)) (rr : Option ℚ) :
    (runSim bars ind rr).equity =
      List.scanl (· + ·) 0 ((runSim bars ind rr).trades.map Trade.points) ∧
    (runSim bars ind rr).equity.length = (runSim bars ind rr).trades.length + 1 ∧
    (runSim bars ind rr).equity.getD 0 0 = 0 ∧
    (∀ k, k < (runSim bars ind rr).trades.length →
      (runSim bars ind rr).equity.getD (k + 1) 0 =
        (runSim bars ind rr).equity.getD k 0 +
          ((runSim bars ind rr).trades.getD k default).points) ∧
    (runSim bars ind rr).equity.getLastD 0 = total_points (runSim bars ind rr).trades := by
  have h := runSim_equityOK bars ind rr
  unfold EquityOK at h
  refine ⟨h, ?_, ?_, ?_, ?_⟩
  · rw [h, List.length_scanl, List.length_map]
  · rw [h, scanl_add_head]
  · intro k hk
    rw [h, ← getD_points_map _ k hk]
    exact scanl_add_getD _ 0 k (by simpa using hk)
  · rw [h, scanl_add_getLastD, total_points]
    simp

/-- Witness for C9: on the flip scenario the run closes two trades with
points −1 and 13; the equity curve is `[0, −1, 12]`, its last value 12 is the
total points, and its second value is the first plus the first trade's points. -/
theorem claim_C9_check :
    (runSim barsF indF (some 2)).equity.getLastD 0 =
      total_points (runSim barsF indF (some 2)).trades ∧
    (runSim barsF indF (some 2)).equity.getD 1 0 =
      (runSim barsF indF (some 2)).equity.getD 0 0 +
        ((runSim barsF indF (some 2)).trades.getD 0 default).points ∧
    (runSim barsF indF (some 2)).equity = [0, -1, 12] := by
  refine ⟨(claim_C9 barsF indF (some 2)).2.2.2.2, ?_, ?_⟩
  · refine (claim_C9 barsF indF (some 2)).2.2.2.1 0 ?_
    norm_num +decide [runSim, simLoop, barsF, indF, step, initState, signalList, classify,
      crossAt, List.range', dirOf, dirOfCross, flipB, stopHit, targetHit, targetOf,
      mkTrade, pointsOf, barAt, indAt]
  · norm_num +decide [runSim, simLoop, barsF, indF, step, initState, signalList, classify,
      crossAt, List.range', dirOf, dirOfCross, flipB, stopHit, targetHit, targetOf,
      mkTrade, pointsOf, barAt, indAt]

/-- The source's branchy maximum update equals `max`. -/
theorem if_lt_max (a b : ℚ) : (if a < b then b else a) = max a b := by
  rcases le_or_lt b a with h | h
  · rw [if_neg (not_lt.2 h), max_eq_left h]
  · rw [if_pos h, max_eq_right h.le]

/-- The drawdown scan computes the maximum, over all positions, of the
running peak minus the current value. -/
theorem dd_foldl (l : List ℚ) : ∀ (d p : ℚ),
    (l.foldl ddStep (d, p)).1 =
      (List.zipWith (fun q x => q - x) (peaks p l) l).foldl max d := by
  induction l with
  | nil => intro d p; rfl
  | cons x xs ih =>
      intro d p
      have hstep : ddStep (d, p) x = (max d (max p x - x), max p x) := by
        simp only [ddStep, if_lt_max]
      rw [List.foldl_cons, hstep, ih, peaks, List.zipWith_cons_cons, List.foldl_cons]

/-- Claim C8: the win rate is the count of strictly positive-point trades
over the total, as a percentage, 0 with no trades; the expectancy is the mean
of points, 0 with no trades; the maximum drawdown is the maximum over the
equity curve of running peak minus current value, the peak seeded at the
curve's first value, which for a run is 0. -/
theorem claim_C8 (trades : List Trade) (curve : List ℚ) (bars : List Bar)
    (ind : List (Option ℚ)) (rr : Option ℚ) :
    win_rate trades = (if trades.length = 0 then 0 else
      (trades.countP (fun t => decide (0 < t.points)) : ℚ) / (trades.length : ℚ) * 100) ∧
    expectancy trades = (if trades.length = 0 then 0 else
      ((trades.map Trade.points).sum) / (trades.length : ℚ)) ∧
    maxDrawdown curve = (ddList curve).foldl max 0 ∧
    (runSim bars ind rr).equity.getD 0 0 = 0 := by
    refine ⟨?_, ?_, ?_, ?_⟩
    · simp [win_rate, win_trades, List.countP_eq_length_filter]
    · simp [expectancy, total_points]
    · exact dd_foldl curve 0 (curve.getD 0 0)
    · have h := runSim_equityOK bars ind rr
      unfold EquityOK at h
      rw [h, scanl_add_head]

/-- Claim C10: winners are the trades with strictly positive points and
losers those with points ≤ 0, so every trade is exactly one of the two and
the counts add up to the trade count; a zero-point trade is a loser. -/
theorem claim_C10 (trades : List Trade) :
    (win_trades trades).length + (loss_trades trades).length = trades.length ∧
    (∀ t ∈ trades, (t ∈ win_trades trades ∧ t ∉ loss_trades trades) ∨
      (t ∈ loss_trades trades ∧ t ∉ win_trades trades)) ∧
    (∀ t ∈ trades, t.points = 0 →
      t ∈ loss_trades trades ∧ t ∉ win_trades trades) := by
  refine ⟨?_, ?_, ?_⟩
  · induction trades with
    | nil => rfl
    | cons t ts ih =>
        simp only [win_trades, loss_trades, List.filter_cons] at ih ⊢
        by_cases h : (0 : ℚ) < t.points
        · have h' : ¬ t.points ≤ 0 := not_le.2 h
          rw [if_pos (by simpa using h), if_neg (by simpa using h')]
          simp only [List.length_cons]
          omega
        · have h' : t.points ≤ 0 := not_lt.1 h
          rw [if_neg (by simpa using h), if_pos (by simpa using h')]
          simp only [List.length_cons]
          omega
  · intro t ht
    by_cases h : (0 : ℚ) < t.points
    · exact Or.inl ⟨by simp [win_trades, List.mem_filter, ht, h],
        by simp [loss_trades, List.mem_filter, not_le.2 h]⟩
    · exact Or.inr ⟨by simp [loss_trades, List.mem_filter, ht, not_lt.1 h],
        by simp [win_trades, List.mem_filter, h]⟩
  · intro t ht hz
    exact ⟨by simp [loss_trades, List.mem_filter, ht, hz.le],
      by simp [win_trades, List.mem_filter, hz]⟩

/-- Witness for C10: of the two trades one wins (3 points) and one has
exactly 0 points; the zero-point trade is counted as a loss and the counts
partition the two trades. -/
theorem claim_C10_check :
    (win_trades trades10).length + (loss_trades trades10).length = 2 ∧
    tZero ∈ loss_trades trades10 ∧ tZero ∉ win_trades trades10 := by
  have h := claim_C10 trades10
  have hz := h.2.2 tZero (by simp [trades10, tZero]) rfl
  exact ⟨h.1.trans (by norm_num [trades10]), hz.1, hz.2⟩

/-- A `step` either leaves the state unchanged, or enters at bar `i` without
closing anything, or closes exactly one trade entered at the current
`entry_idx` and exiting at bar `i`, re-entering at `i` if it stays in a trade. -/
theorem step_shape (bars : List Bar) (ind : List (Option ℚ)) (rr : Option ℚ)
    (st : SimState) (i : ℕ) :
    step bars ind rr st i = st ∨
    ((step bars ind rr st i).trades = st.trades ∧
      (step bars ind rr st i).entry_idx = i) ∨
    (st.in_trade = true ∧
      (∃ x, (step bars ind rr st i).trades =
        st.trades ++ [mkTrade bars st.entry_idx i st.dir st.entry_price x] ∧
      ((step bars ind rr st i).in_trade = true →
        (step bars ind rr st i).entry_idx = i))) := by
  by_cases hin : st.in_trade = true
  · simp only [step, hin]
    simp only [Bool.true_eq_false, if_false, if_true]
    split
    · exact Or.inr (Or.inr ⟨trivial, _, rfl, fun _ => rfl⟩)
    · split
      · refine Or.inr (Or.inr ⟨trivial, _, rfl, fun hc => ?_⟩)
        simp at hc
      · split
        · refine Or.inr (Or.inr ⟨trivial, _, rfl, fun hc => ?_⟩)
          simp at hc
        · exact Or.inl rfl
  · have hin' : st.in_trade = false := by revert hin; cases st.in_trade <;> simp
    simp only [step, hin', if_true]
    cases crossAt (signalList bars ind) i with
    | none => exact Or.inl rfl
    | some s => exact Or.inr (Or.inl ⟨rfl, rfl⟩)

/-- `TimedOK` is monotone in its index bound. -/
theorem timedOK_mono (bars : List Bar) (st : SimState) {b c : ℕ}
    (h : TimedOK bars st b) (hbc : b ≤ c) : TimedOK bars st c :=
  ⟨h.1, fun ht => (h.2 ht).trans hbc⟩

/-- A `step` at bar `i` preserves `TimedOK`, moving the bound up to `i`,
whenever bar times are monotone in the index. -/
theorem step_timedOK (bars : List Bar) (ind : List (Option ℚ)) (rr : Option ℚ)
    (htime : ∀ j, j < bars.length → ∀ k, k ≤ j →
      (barAt bars k).time ≤ (barAt bars j).time)
    (st : SimState) (i b : ℕ) (hb : b ≤ i) (hi : i < bars.length)
    (h : TimedOK bars st b) : TimedOK bars (step bars ind rr st i) i := by
  obtain ⟨h1, h2⟩ := h
  rcases step_shape bars ind rr st i with heq | ⟨ht, he⟩ | ⟨hin, x, ht, he⟩
  · rw [heq]
    exact timedOK_mono bars st ⟨h1, h2⟩ hb
  · exact ⟨ht ▸ h1, fun _ => le_of_eq he⟩
  · refine ⟨?_, fun hc => le_of_eq (he hc)⟩
    intro t hmem
    rw [ht] at hmem
    rcases List.mem_append.1 hmem with hmem | hmem
    · exact h1 t hmem
    · rw [List.mem_singleton.1 hmem]
      simp only [mkTrade]
      exact htime i hi st.entry_idx ((h2 hin).trans hb)

/-- Folding `step` over an ascending list of in-range bar indices preserves
`TimedOK` up to any bound dominating the list. -/
theorem foldl_timedOK (bars : List Bar) (ind : List (Option ℚ)) (rr : Option ℚ)
    (htime : ∀ j, j < bars.length → ∀ k, k ≤ j →
      (barAt bars k).time ≤ (barAt bars j).time) :
    ∀ (l : List ℕ) (st : SimState) (b c : ℕ),
      List.Pairwise (· ≤ ·) l → (∀ j ∈ l, j < bars.length) → (∀ j ∈ l, b ≤ j) →
      (∀ j ∈ l, j ≤ c) → b ≤ c → TimedOK bars st b →
      TimedOK bars (l.foldl (step bars ind rr) st) c := by
  intro l
  induction l with
  | nil =>
      intro st b c _ _ _ _ hbc h
      exact timedOK_mono bars st h hbc
  | cons j t ih =>
      intro st b c hp hlen hlb hlc hbc h
      rw [List.foldl_cons]
      refine ih (step bars ind rr st j) j c hp.of_cons
        (fun k hk => hlen k (List.mem_cons_of_mem j hk))
        (fun k hk => (List.pairwise_cons.1 hp).1 k hk)
        (fun k hk => hlc k (List.mem_cons_of_mem j hk))
        (hlc j (List.mem_cons_self j t)) ?_
      exact step_timedOK bars ind rr htime st j b (hlb j (List.mem_cons_self j t))
        (hlen j (List.mem_cons_self j t)) h

/-- Claim C3: under monotone bar times, every recorded trade of a run exits
no earlier than it entered; and a flip closes the open position at the bar's
open price into exactly one trade, immediately re-entering at the same bar
and same price in the direction of the firing signal, so the new position's
stop level will be read from that bar's indicator value, and the next trade's
entry time equals this trade's exit time. -/
theorem claim_C3 (bars : List Bar) (ind : List (Option ℚ)) (rr : Option ℚ)
    (htime : ∀ j, j < bars.length → ∀ k, k ≤ j →
      (barAt bars k).time ≤ (barAt bars j).time) :
    (∀ t ∈ (runSim bars ind rr).trades, t.entry_time ≤ t.exit_time) ∧
    (∀ st i, st.in_trade = true →
      flipB st.dir (crossAt (signalList bars ind) i) = true →
      step bars ind rr st i =
        { trades := st.trades ++ [mkTrade bars st.entry_idx i st.dir st.entry_price
            (barAt bars i).op]
          in_trade := true
          entry_idx := i
          entry_price := (barAt bars i).op
          dir := dirOfCross (crossAt (signalList bars ind) i)
          equity := st.equity ++ [st.equity.getLastD 0 +
            pointsOf st.dir st.entry_price (barAt bars i).op] }) := by
  constructor
  · have hT : TimedOK bars (simLoop bars ind rr) (bars.length - 1) := by
      refine foldl_timedOK bars ind rr htime (List.range' 1 (bars.length - 1))
        initState 0 (bars.length - 1)
        ((List.pairwise_lt_range' 1 (bars.length - 1) 1).imp fun hlt => le_of_lt hlt)
        ?_ (fun j _ => Nat.zero_le j) ?_ (Nat.zero_le _) ?_
      · intro j hj
        rw [List.mem_range'_1] at hj
        omega
      · intro j hj
        rw [List.mem_range'_1] at hj
        omega
      · exact ⟨fun t ht => absurd ht (List.not_mem_nil t), fun ht => by
          simp [initState] at ht⟩
    unfold runSim
    by_cases hin : (simLoop bars ind rr).in_trade = true
    · simp only [hin, if_true]
      intro t ht
      rcases List.mem_append.1 ht with hmem | hmem
      · exact hT.1 t hmem
      · rw [List.mem_singleton.1 hmem]
        simp only [mkTrade]
        have hb : (simLoop bars ind rr).entry_idx ≤ bars.length - 1 := hT.2 hin
        have hpos : 0 < bars.length := by
          rcases Nat.eq_zero_or_pos bars.length with h0 | h0
          · exfalso
            have he : simLoop bars ind rr = initState := by
              unfold simLoop
              rw [h0]
              rfl
            rw [he] at hin
            simp [initState] at hin
          · exact h0
        exact htime (bars.length - 1) (by omega) _ hb
    · have hin' : (simLoop bars ind rr).in_trade = false := by
        revert hin
        cases (simLoop bars ind rr).in_trade <;> simp
      simp only [hin']
      simp only [Bool.false_eq_true, if_false]
      exact hT.1
  · intro st i hin hf
    simp [step, hin, hf]

/-- Witness for C3: on the flip scenario (bullish entry at bar 1, bearish
flip at bar 2, forced close at the end) both trades satisfy
exit time ≥ entry time, and the flip makes the second trade's entry time
equal the first trade's exit time. -/
theorem claim_C3_check :
    (∀ t ∈ (runSim barsF indF (some 2)).trades, t.entry_time ≤ t.exit_time) ∧
    (runSim barsF indF (some 2)).trades =
      [⟨1, 2, Dir.long, 104, 103, -1⟩, ⟨2, 2, Dir.short, 103, 90, 13⟩] := by
  constructor
  · refine (claim_C3 barsF indF (some 2) ?_).1
    intro j hj k hk
    simp only [barsF, List.length_cons, List.length_nil] at hj
    interval_cases j <;> interval_cases k <;> norm_num [barsF, barAt]
  · norm_num +decide [runSim, simLoop, barsF, indF, step, initState, signalList, classify,
      crossAt, List.range', dirOf, dirOfCross, flipB, stopHit, targetHit, targetOf,
      mkTrade, pointsOf, barAt, indAt]

/-- Reading the signal column at an in-range index classifies that bar's
close against that bar's indicator value. -/
theorem signalList_getD (bars : List Bar) :
    ∀ (ind : List (Option ℚ)) (i : ℕ), i < bars.length → i < ind.length →
      (signalList bars ind).getD i Sig.Bearish =
        classify (barAt bars i).close (indAt ind i) := by
  induction bars with
  | nil =>
      intro ind i h1 _
      simp at h1
  | cons b bs ih =>
      intro ind i h1 h2
      cases ind with
      | nil => simp at h2
      | cons v vs =>
          cases i with
          | zero => simp [signalList, barAt, indAt]
          | succ k =>
              have h := ih vs k (by simpa using h1) (by simpa using h2)
              simpa [signalList, barAt, indAt] using h

/-- Claim C6 (amended): the classification at bar `i` is Bullish exactly when
the indicator is defined and strictly below the close — equality of close and
indicator classifies as Bearish (not a carry-forward of the prior bar), and an
undefined indicator classifies as Bearish (not None) — and for `i > 0` a
firing signal occurs exactly when the classification differs from bar `i−1`. -/
theorem claim_C6 (bars : List Bar) (ind : List (Option ℚ)) (i : ℕ)
    (hb : i < bars.length) (hn : i < ind.length) :
    ((signalList bars ind).getD i Sig.Bearish = Sig.Bullish ↔
      ∃ v, indAt ind i = some v ∧ v < (barAt bars i).close) ∧
    (0 < i → (crossAt (signalList bars ind) i = none ↔
      (signalList bars ind).getD i Sig.Bearish =
        (signalList bars ind).getD (i - 1) Sig.Bearish)) := by
  constructor
  · rw [signalList_getD bars ind i hb hn]
    cases h : indAt ind i with
    | none => simp [classify]
    | some v =>
        simp only [classify]
        by_cases hv : v < (barAt bars i).close
        · simp [hv]
        · simp [hv]
  · intro hi
    have hlen : i < (signalList bars ind).length := by
      simp only [signalList, List.length_zipWith]
      omega
    have hlen' : i - 1 < (signalList bars ind).length :=
      lt_of_le_of_lt (Nat.sub_le i 1) hlen
    obtain ⟨s, hs⟩ : ∃ s, (signalList bars ind)[i]? = some s :=
      ⟨_, List.getElem?_eq_getElem hlen⟩
    obtain ⟨p, hp⟩ : ∃ p, (signalList bars ind)[i-1]? = some p :=
      ⟨_, List.getElem?_eq_getElem hlen'⟩
    have hgs : (signalList bars ind).getD i Sig.Bearish = s := by
      rw [List.getD_eq_getElem?_getD, hs]
      rfl
    have hgp : (signalList bars ind).getD (i - 1) Sig.Bearish = p := by
      rw [List.getD_eq_getElem?_getD, hp]
      rfl
    rw [hgs, hgp]
    unfold crossAt
    rw [hs]
    simp only [hp, if_neg (Nat.pos_iff_ne_zero.1 hi)]
    by_cases hsp : s = p
    · simp [hsp]
    · simp [hsp]

/-- Counterexample to C6 as stated: at bar 1 the close equals the indicator
yet the classification flips from the prior Bullish to Bearish instead of
carrying the prior value forward, and at bar 3 the indicator is undefined yet
the signal is a firing Bearish rather than None. -/
theorem claim_C6_cex :
    (signalList bars6 ind6).getD 0 Sig.Bearish = Sig.Bullish ∧
    (barAt bars6 1).close = (indAt ind6 1).getD 0 ∧
    (signalList bars6 ind6).getD 1 Sig.Bullish = Sig.Bearish ∧
    indAt ind6 3 = none ∧
    crossAt (signalList bars6 ind6) 3 = some Sig.Bearish := by
  norm_num +decide [signalList, classify, crossAt, bars6, ind6, barAt, indAt]

/-- Witness for the amended C6: at bar 2 of the counterexample series the
indicator 100 sits strictly below the close 103, so the classification is
Bullish, and it differs from bar 1, so a firing signal occurs. -/
theorem claim_C6_check :
    (signalList bars6 ind6).getD 2 Sig.Bearish = Sig.Bullish ∧
    ¬ crossAt (signalList bars6 ind6) 2 = none := by
  have h := claim_C6 bars6 ind6 2 (by norm_num [bars6]) (by norm_num [ind6])
  refine ⟨h.1.mpr ⟨100, by norm_num [indAt, ind6], by norm_num [barAt, bars6]⟩, ?_⟩
  rw [h.2 (by norm_num)]
  norm_num +decide [signalList, classify, bars6, ind6]

end Duckweb
